import Mathlib

/-!
Verification of the mission-helper template codec, category resolver,
mission cache and attachment manager.

Text is modelled as `List Char`.  The codec functions are shallow
embeddings of `src/utils/template_utils.py` (parse_template,
determine_category) and of the draft serialization loop in
`src/utils/template_loader.py` (save_draft / save_template).
-/

namespace MissionHelper

abbrev Text := List Char

/-- Python `str.strip()` whitespace test (the characters stripped by default). -/
def isWS (c : Char) : Bool :=
  c = ' ' || c = '\t' || c = '\n' || c = '\r' || c = '\x0b' || c = '\x0c'

/-- Left strip, as in Python `str.lstrip()`. -/
def lstrip (s : Text) : Text := s.dropWhile isWS

/-- Right strip, as in Python `str.rstrip()`. -/
def rstrip (s : Text) : Text := (s.reverse.dropWhile isWS).reverse

/-- Python `str.strip()`. -/
def strip (s : Text) : Text := rstrip (lstrip s)

/-- Python `str.split('\n')`: the resulting list of lines (never empty,
blank segments preserved). -/
def splitLines : Text → List Text
  | [] => [[]]
  | c :: rest =>
    if c = '\n' then [] :: splitLines rest
    else
      match splitLines rest with
      | [] => [[c]]
      | l :: ls => (c :: l) :: ls

/-- Python `'\n'.join(...)`. -/
def joinLines : List Text → Text
  | [] => []
  | [l] => l
  | l :: l' :: ls => l ++ '\n' :: joinLines (l' :: ls)

/-- The six recognized section tags of the template format
(`template_utils.py` line 22). -/
inductive Tag
  | introduction
  | testing
  | documentation
  | conclusionFail
  | conclusionPass
  | scripts
  deriving DecidableEq

/-- The bracketed text of a tag, in the fixed case used by the regex
`^\[(Introduction|Testing|Documentation|conclusion-fail|conclusion-pass|Scripts)\]`. -/
def tagText : Tag → Text
  | .introduction => "[Introduction]".data
  | .testing => "[Testing]".data
  | .documentation => "[Documentation]".data
  | .conclusionFail => "[conclusion-fail]".data
  | .conclusionPass => "[conclusion-pass]".data
  | .scripts => "[Scripts]".data

/-- Drop an expected leading sequence: `dropPre p l = some r` iff `l = p ++ r`. -/
def dropPre : Text → Text → Option Text
  | [], l => some l
  | _ :: _, [] => none
  | p :: ps, c :: cs => if p = c then dropPre ps cs else none

/-- The `re.MULTILINE` match `^\[(Tag)\]` of `parse_template`, applied to one
line: which recognized tag (if any) starts this line, and the remainder of
the line after the closing bracket.  The regex has no IGNORECASE flag, so
matching is case-sensitive, in exactly the six fixed spellings; the
alternatives are mutually exclusive, so the alternation order of the regex
does not matter. -/
def tagOf (l : Text) : Option (Tag × Text) :=
  match dropPre (tagText .introduction) l with
  | some r => some (.introduction, r)
  | none =>
  match dropPre (tagText .testing) l with
  | some r => some (.testing, r)
  | none =>
  match dropPre (tagText .documentation) l with
  | some r => some (.documentation, r)
  | none =>
  match dropPre (tagText .conclusionFail) l with
  | some r => some (.conclusionFail, r)
  | none =>
  match dropPre (tagText .conclusionPass) l with
  | some r => some (.conclusionPass, r)
  | none =>
  match dropPre (tagText .scripts) l with
  | some r => some (.scripts, r)
  | none => none

/-- The parsed section map: Python dict keyed by the lowercased tag name.
`none` models an absent key. -/
structure Sections where
  introduction : Option Text := none
  testing : Option Text := none
  documentation : Option Text := none
  conclusionFail : Option Text := none
  conclusionPass : Option Text := none
  scripts : Option (List Text) := none
  deriving DecidableEq

/-- Value stored for the `scripts` key:
`content.split('\n') if content else []` (`template_utils.py` line 33). -/
def scriptsVal (content : Text) : List Text :=
  if content = [] then [] else splitLines content

/-- One dict assignment `sections[section_name] = ...` of `parse_template`. -/
def setSection (s : Sections) (t : Tag) (content : Text) : Sections :=
  match t with
  | .introduction => { s with introduction := some content }
  | .testing => { s with testing := some content }
  | .documentation => { s with documentation := some content }
  | .conclusionFail => { s with conclusionFail := some content }
  | .conclusionPass => { s with conclusionPass := some content }
  | .scripts => { s with scripts := some (scriptsVal content) }

/-- The iteration over regex matches in `parse_template`, as a single pass
over the lines: the state holds the tag of the currently open section and
the content lines collected so far (the first entry being the remainder of
the tag line after the closing bracket).  Each block yields
`(tag, stripped content up to the next match)`.  Working line-wise is
equivalent to the character-offset slicing of the Python code because
`^[Tag]` only matches at line starts, and the only difference in the raw
slice (a trailing newline before the next tag line) is removed by `strip`. -/
def parseGo : List Text → Option (Tag × List Text) → List (Tag × Text)
  | [], none => []
  | [], some (t, acc) => [(t, strip (joinLines acc))]
  | l :: ls, cur =>
    match tagOf l with
    | some (t, r) =>
      match cur with
      | none => parseGo ls (some (t, [r]))
      | some (t', acc) => (t', strip (joinLines acc)) :: parseGo ls (some (t, [r]))
    | none =>
      match cur with
      | none => parseGo ls none
      | some (t', acc) => parseGo ls (some (t', acc ++ [l]))

/-- `parse_template` of `src/utils/template_utils.py`. -/
def parse_template (s : Text) : Sections :=
  (parseGo (splitLines s) none).foldl (fun acc b => setSection acc b.1 b.2) {}

/-! Part: Category resolver (`determine_category`, `template_utils.py` lines 40-65). -/

/-- The five categories the resolver can return. -/
inductive Category
  | host
  | web
  | mobile
  | api
  | sv2m
  deriving DecidableEq

/-- ASCII lowercasing of one character, embedding Python `str.lower()`
(the asset-type strings involved are ASCII). -/
def lowerChar (c : Char) : Char :=
  if 'A' ≤ c ∧ c ≤ 'Z' then Char.ofNat (c.toNat + 32) else c

/-- Python `str.lower()` on a whole string. -/
def lowerText (s : Text) : Text := s.map lowerChar

/-- Python `needle in haystack` substring test. -/
def containsSub : Text → Text → Bool
  | n, [] => n.isEmpty
  | n, c :: t => n.isPrefixOf (c :: t) || containsSub n t

/-- The per-element checks of the loop in `determine_category`: lowercase the
asset type, then test the five substrings in order
`host, web, mobile, api, sv2m`; `none` when this element matches nothing. -/
def categoryOfAsset (a : Text) : Option Category :=
  let low := lowerText a
  if containsSub "host".data low then some .host
  else if containsSub "web".data low then some .web
  else if containsSub "mobile".data low then some .mobile
  else if containsSub "api".data low then some .api
  else if containsSub "sv2m".data low then some .sv2m
  else none

/-- `determine_category` of `src/utils/template_utils.py`: `none` models the
`asset_types=None` default; the loop returns at the first element matching
any substring, and the fall-through default is `web` (an empty list is falsy
in Python, so it also reaches the default). -/
def determine_category (assetTypes : Option (List Text)) : Category :=
  match assetTypes with
  | none => .web
  | some l => (l.findSome? categoryOfAsset).getD .web

/-! Part: Mission cache (`get_all_missions`, `src/utils/api.py` lines 37-152).

The model is parametric in the mission payload type `M`.  The outcome of one
HTTP page request is an oracle `pages : Nat → PageResult M`; the unbounded
`while True` loop takes explicit fuel and the whole call returns `none` when
the fuel runs out (the Python loop would still be running), so every theorem
about a completed call is stated on a `some` result. -/

/-- Outcome of one `requests.get` for a page of the task listing. -/
inductive PageResult (M : Type)
  | ok (tasks : List M)
  | unauthorized
  | otherStatus
  | netError (msg : String)

/-- Result of the pagination `while True` loop, with the number of page
requests that were issued.  `fetched` covers both normal exits of the loop
(a short page, or a non-200/non-401 status that `break`s keeping the pages
fetched so far); `authFailure` is the `raise Exception(...)` of the 401
branch; `netFailure` is a `requests.exceptions.RequestException`. -/
inductive FetchOutcome (M : Type)
  | fetched (tasks : List M) (requests : Nat)
  | authFailure (requests : Nat)
  | netFailure (msg : String) (requests : Nat)
  | fuelOut

/-- `per_page = 20` (`api.py` line 80). -/
def perPage : Nat := 20

/-- The pagination loop of `get_all_missions` (`api.py` lines 84-106). -/
def fetchPages {M : Type} (pages : Nat → PageResult M) :
    Nat → Nat → List M → Nat → FetchOutcome M
  | 0, _, _, _ => .fuelOut
  | fuel + 1, page, acc, req =>
    match pages page with
    | .ok new =>
      if new.length < perPage then .fetched (acc ++ new) (req + 1)
      else fetchPages pages fuel (page + 1) (acc ++ new) (req + 1)
    | .unauthorized => .authFailure (req + 1)
    | .otherStatus => .fetched acc (req + 1)
    | .netError m => .netFailure m (req + 1)

/-- The `source` field of the status dict returned by `get_all_missions`. -/
inductive Source
  | initial_cache
  | memory_cache
  | api
  | cache_fallback
  deriving DecidableEq

/-- The `{'success': ..., 'source': ..., 'error': ...}` status dict. -/
structure ApiStatus where
  success : Bool
  source : Source
  error : Option String
  deriving DecidableEq

/-- The module-level mutable state of `api.py`:
`_has_loaded_initial`, `_cached_missions`, `_last_fetch_time`. -/
structure CacheState (M : Type) where
  hasLoadedInitial : Bool
  cachedMissions : Option (List M)
  lastFetchTime : Nat

/-- The environment of one call: the token file (`none` = missing/unreadable),
the result of `load_cached_tasks()` (`[]` when `tasks.json` is missing, empty
or unreadable), the mtime of `tasks.json`, the current time, and the page
oracle. -/
structure Env (M : Type) where
  token : Option String
  disk : List M
  diskMtime : Nat
  now : Nat
  pages : Nat → PageResult M

/-- Everything observable after one completed call to `get_all_missions`:
the returned pair, the module state afterwards, the content of `tasks.json`
afterwards, and how many page requests were made (0 = no network attempt). -/
structure CallResult (M : Type) where
  missions : List M
  status : ApiStatus
  state : CacheState M
  disk : List M
  requests : Nat

/-- `get_all_missions` of `src/utils/api.py`.  Notes kept from the source:
the initial-load branch only fires when `load_cached_tasks()` is truthy
(non-empty); the 401 branch raises `Exception("API call failed please check
authentication")`, which is not a `RequestException` and is therefore caught
by the function's own outer `except Exception` handler (line 132), producing
the `"Error fetching tasks: ..."` fallback return; in the zero-tasks branch
`api_error` is still `None`, so the error string is the literal
`'No tasks fetched from API'`. -/
def get_all_missions {M : Type} (force_refresh : Bool) (st : CacheState M)
    (env : Env M) (fuel : Nat) : Option (CallResult M) :=
  if ¬ st.hasLoadedInitial ∧ ¬ env.disk.isEmpty then
    some { missions := env.disk
           status := { success := true, source := .initial_cache, error := none }
           state := { hasLoadedInitial := true, cachedMissions := some env.disk,
                      lastFetchTime := env.diskMtime }
           disk := env.disk, requests := 0 }
  else if ¬ force_refresh ∧ st.cachedMissions.isSome then
    some { missions := st.cachedMissions.getD []
           status := { success := true, source := .memory_cache, error := none }
           state := st, disk := env.disk, requests := 0 }
  else
    match env.token with
    | none =>
      some { missions := env.disk
             status := { success := false, source := .cache_fallback,
                         error := some "No auth token found" }
             state := st, disk := env.disk, requests := 0 }
    | some _ =>
      match fetchPages env.pages fuel 1 [] 0 with
      | .fuelOut => none
      | .netFailure m r =>
        some { missions := env.disk
               status := { success := false, source := .cache_fallback,
                           error := some ("Network error while fetching tasks: " ++ m) }
               state := st, disk := env.disk, requests := r }
      | .authFailure r =>
        some { missions := env.disk
               status := { success := false, source := .cache_fallback,
                           error := some "Error fetching tasks: API call failed please check authentication" }
               state := st, disk := env.disk, requests := r }
      | .fetched tasks r =>
        if tasks.isEmpty then
          some { missions := env.disk
                 status := { success := false, source := .cache_fallback,
                             error := some "No tasks fetched from API" }
                 state := st, disk := env.disk, requests := r }
        else
          some { missions := tasks
                 status := { success := true, source := .api, error := none }
                 state := { hasLoadedInitial := st.hasLoadedInitial,
                            cachedMissions := some tasks, lastFetchTime := env.now }
                 disk := tasks, requests := r }

/-! Part: Attachment manager (`src/routes/mission_routes.py`).

Attachment filenames and sidecar metadata are modelled for one mission's
attachment directory.  Paths inside the directory are just filenames; the
sidecar for file `f` is the entry keyed `f` (standing for `metadata/f.json`). -/

/-- Boolean version of Python `str.startswith`. -/
def startsW (p s : Text) : Bool := (dropPre p s).isSome

/-- The root part of Python `os.path.splitext`: everything before the last
dot, except that a dot inside the leading run of dots never splits
(`.hidden` has no extension). -/
def splitextBase (s : Text) : Text :=
  let rev := s.reverse
  let after := rev.takeWhile (fun c => c ≠ '.')
  if after.length = rev.length then s
  else
    let root := (rev.drop (after.length + 1)).reverse
    if root.any (fun c => c ≠ '.') then root else s

/-- Python `s.split('_', 1)[1] if '_' in s else s`, used to strip a previous
id from a filename before prepending the remote id. -/
def afterFirstUnderscore (s : Text) : Text :=
  if '_' ∈ s then (s.dropWhile (fun c => c ≠ '_')).drop 1 else s

/-- The sidecar metadata fields consulted by the lookup and promotion logic
(`title`, `description`, `content_type`, `size` and the timestamps are
carried along in the real JSON but never branch on anything here). -/
structure SidecarMeta where
  id : Text
  original_filename : Text
  filename : Text
  uploaded_to_api : Bool
  synack_id : Option Text
  deriving DecidableEq

/-- One mission's attachment directory: the files of the directory in
`os.listdir` order, and the sidecar JSON files keyed by the attachment
filename. -/
structure AttachStore where
  files : List Text
  metadata : List (Text × SidecarMeta)
  deriving DecidableEq

/-- Read the sidecar for a filename (`metadata/{filename}.json`). -/
def metaFor (s : AttachStore) (fname : Text) : Option SidecarMeta :=
  (s.metadata.find? (fun p => p.1 = fname)).map (fun p => p.2)

/-- The local-store step of the upload loop for one file
(`upload_attachments` lines 1479-1520): store `{uuid}_{secured_name}` and
write the sidecar with `uploaded_to_api=False` into an empty directory. -/
def storeLocalOne (uid orig : Text) : AttachStore :=
  let fname := uid ++ '_' :: orig
  { files := [fname]
    metadata := [(fname,
      { id := uid, original_filename := orig, filename := fname,
        uploaded_to_api := false, synack_id := none })] }

/-- Promotion of one locally stored attachment after the remote API returned
`sid` for it (`upload_attachments` lines 1551-1577, same logic in
`upload_to_api` lines 1382-1418): set `synack_id` and `uploaded_to_api` in
the sidecar (the `id` field is left as it was), and if the filename does not
already start with `{sid}_`, rename both the file and the sidecar to
`{sid}_{name-after-first-underscore}`, updating the `filename` field. -/
def promoteOne (s : AttachStore) (fname sid : Text) : AttachStore :=
  match metaFor s fname with
  | none => s
  | some m =>
    let m1 := { m with synack_id := some sid, uploaded_to_api := true }
    if startsW (sid ++ ['_']) fname then
      { s with metadata := s.metadata.map (fun p => if p.1 = fname then (fname, m1) else p) }
    else
      let newf := sid ++ '_' :: afterFirstUnderscore fname
      { files := s.files.map (fun f => if f = fname then newf else f)
        metadata := s.metadata.map (fun p =>
          if p.1 = fname then (newf, { m1 with filename := newf }) else p) }

/-- The lookup loop of `upload_to_api` (lines 1246-1275): first file whose
name starts with `{id}_`, or whose name without extension equals the id, or
whose sidecar's stored `id` equals the id; files starting `temp_` are
skipped. -/
def findByIdUploadToApi (s : AttachStore) (aid : Text) : Option Text :=
  s.files.find? (fun f =>
    !(startsW "temp_".data f) &&
      (startsW (aid ++ ['_']) f || decide (splitextBase f = aid) ||
        decide ((metaFor s f).map SidecarMeta.id = some aid)))

/-- The lookup loop of `download_attachment` (lines 1781-1808): same first
two checks, but the sidecar check compares `synack_id` (not `id`). -/
def findByIdDownload (s : AttachStore) (aid : Text) : Option Text :=
  s.files.find? (fun f =>
    !(startsW "temp_".data f) &&
      (startsW (aid ++ ['_']) f || decide (splitextBase f = aid) ||
        decide ((metaFor s f).bind SidecarMeta.synack_id = some aid)))

/-! Part: Batch upload and rollback (`upload_attachments` vs
`upload_single_attachment`, `mission_routes.py`).

The filesystem is a list of paths; an incoming batch is a list of
`(uuid, secured original name)` pairs.  The two endpoints store batches
identically but record different dicts in `uploaded_files`:
`upload_attachments` (lines 1511-1520) stores `file_path`/`metadata_path`,
`upload_single_attachment` (lines 1668-1674) does not.  The rollback loop
(lines 1535-1542 and 1689-1696) reads `u['file_path']` and
`u['metadata_path']` inside `try: ... except Exception: pass`, so a missing
key raises `KeyError` and silently skips the deletions for that entry. -/

/-- One entry of `uploaded_files`; `none` models an absent dict key. -/
structure UploadedEntry where
  id : Text
  filename : Text
  file_path : Option Text
  metadata_path : Option Text

/-- `os.remove(p)` guarded by `os.path.exists(p)`. -/
def removePath (fs : List Text) (p : Text) : List Text := fs.filter (fun q => q ≠ p)

/-- The shared local-store loop: save `{uuid}_{name}` under the attachments
directory and the sidecar under the metadata directory.  `withPaths` is true
for `upload_attachments`, whose entries record the two paths. -/
def storeBatch (adir mdir : Text) (withPaths : Bool)
    (batch : List (Text × Text)) (fs : List Text) : List Text × List UploadedEntry :=
  batch.foldl
    (fun st b =>
      let fname := b.1 ++ '_' :: b.2
      let fpath := adir ++ '/' :: fname
      let mpath := mdir ++ '/' :: (fname ++ ".json".data)
      (st.1 ++ [fpath, mpath],
       st.2 ++ [{ id := b.1, filename := fname,
                  file_path := if withPaths then some fpath else none,
                  metadata_path := if withPaths then some mpath else none }]))
    (fs, [])

/-- The per-entry body of the rollback loop.  Each entry is processed inside
`try: ... except Exception: pass`: a `KeyError` on `u['file_path']` skips
both deletions, and one on `u['metadata_path']` skips the sidecar deletion. -/
def rollbackEntry (fs : List Text) (u : UploadedEntry) : List Text :=
  match u.file_path with
  | none => fs
  | some fp =>
    let fs1 := removePath fs fp
    match u.metadata_path with
    | none => fs1
    | some mp => removePath fs1 mp

/-- The rollback loop run on API failure. -/
def rollbackBatch (fs : List Text) (ups : List UploadedEntry) : List Text :=
  ups.foldl rollbackEntry fs

/-- Filesystem state after `upload_attachments` stores a batch and the
combined remote multi-upload fails (lines 1479-1548). -/
def upload_attachments_on_api_failure (adir mdir : Text)
    (batch : List (Text × Text)) (fs : List Text) : List Text :=
  let st := storeBatch adir mdir true batch fs
  rollbackBatch st.1 st.2

/-- Filesystem state after `upload_single_attachment` stores a batch and the
combined remote multi-upload fails (lines 1636-1702). -/
def upload_single_attachment_on_api_failure (adir mdir : Text)
    (batch : List (Text × Text)) (fs : List Text) : List Text :=
  let st := storeBatch adir mdir false batch fs
  rollbackBatch st.1 st.2

/-! Part: Draft serialization (`save_draft`, `src/utils/template_loader.py`
lines 251-350; the reconstruction loop is identical in `save_template`). -/

/-- One `template_content += f"[{key}]\n{content}\n\n"` step. -/
def emitOne (t : Tag) (content : Text) : Text :=
  tagText t ++ '\n' :: (content ++ ['\n', '\n'])

/-- The `[Scripts]` part, added only when the scripts list is truthy
(non-empty): `"[Scripts]\n" + "\n".join(scripts) + "\n"`. -/
def scriptsPart (ss : List Text) : Text :=
  if ss = [] then [] else tagText .scripts ++ '\n' :: (joinLines ss ++ ['\n'])

/-- The reconstruction loop of `save_draft` (lines 336-348) applied to a
section map: emit the five string sections in fixed order with `get(key, "")`
defaults, append the scripts section when non-empty, and write
`template_content.strip()`. -/
def serializeSections (s : Sections) : Text :=
  strip (emitOne .introduction (s.introduction.getD []) ++
    emitOne .testing (s.testing.getD []) ++
    emitOne .documentation (s.documentation.getD []) ++
    emitOne .conclusionPass (s.conclusionPass.getD []) ++
    emitOne .conclusionFail (s.conclusionFail.getD []) ++
    scriptsPart (s.scripts.getD []))

/-- The `scripts` value from the request can be a string or a list. -/
inductive ScriptsIn
  | str (s : Text)
  | list (l : List Text)

/-- `save_draft` lines 308-310: a string value is split into its lines and
lines that are blank after stripping are dropped (Python `splitlines` is
modelled as splitting on newline; the extra Unicode line breaks it also
splits on do not occur here). -/
def normalizeScripts : ScriptsIn → List Text
  | .list l => l
  | .str s => (splitLines s).filter (fun e => ¬ (strip e).isEmpty)

/-- The fields of `draft_data` consulted by `save_draft`; `none` models an
absent key, replaced by the `.get` defaults of lines 303-308.
`mission_title` only influences the draft filename, not the content. -/
structure DraftData where
  introduction : Option Text := none
  testing_methodology : Option Text := none
  documentation : Option Text := none
  conclusion_type : Option Text := none
  conclusion : Option Text := none
  scripts : Option ScriptsIn := none
  mission_title : Option Text := none

/-- The literal fallback dict of `save_draft` lines 318-325 used when no
draft file exists yet. -/
def emptyDraftSections : Sections :=
  { introduction := some [], testing := some [], documentation := some [],
    conclusionPass := some [], conclusionFail := some [], scripts := some [] }

/-- The section map `save_draft` holds just before reconstruction
(lines 312-333): parse the existing file if any, then overwrite
introduction/testing/documentation/scripts and the one conclusion section
named by `conclusion_type`.  A `conclusion_type` other than `pass`/`fail`
would write a `conclusion-{type}` key outside the six recognized ones, which
the reconstruction loop never reads, so the map is left unchanged. -/
def saveDraftSections (existing : Option Text) (d : DraftData) : Sections :=
  let base :=
    match existing with
    | some e => parse_template e
    | none => emptyDraftSections
  let ct := d.conclusion_type.getD "pass".data
  let conclusionV := d.conclusion.getD "No conclusion available.".data
  let base :=
    { base with
      introduction := some (d.introduction.getD "No introduction provided.".data)
      testing := some (d.testing_methodology.getD "No testing methodology provided.".data)
      documentation := some (d.documentation.getD "No documentation provided.".data)
      scripts := some (normalizeScripts (d.scripts.getD (.list []))) }
  if ct = "pass".data then { base with conclusionPass := some conclusionV }
  else if ct = "fail".data then { base with conclusionFail := some conclusionV }
  else base

/-- The file content written by `save_draft`. -/
def save_draft_content (existing : Option Text) (d : DraftData) : Text :=
  serializeSections (saveDraftSections existing d)

/-! Part: Lemmas about lines and stripping -/

theorem splitLines_ne_nil (s : Text) : splitLines s ≠ [] := by
  induction s with
  | nil => simp [splitLines]
  | cons c rest ih =>
    simp only [splitLines]
    split
    · simp
    · cases h : splitLines rest with
      | nil => exact absurd h ih
      | cons l ls => simp

theorem splitLines_cons_newline (s : Text) :
    splitLines ('\n' :: s) = [] :: splitLines s := by
  simp [splitLines]

theorem splitLines_cons_of_ne (c : Char) (s : Text) (h : c ≠ '\n') :
    splitLines (c :: s) =
      (c :: (splitLines s).headI) :: (splitLines s).tail := by
  simp only [splitLines, if_neg h]
  cases hs : splitLines s with
  | nil => exact absurd hs (splitLines_ne_nil s)
  | cons l ls => simp

theorem splitLines_append_newline (xs ys : Text) :
    splitLines (xs ++ '\n' :: ys) = splitLines xs ++ splitLines ys := by
  induction xs with
  | nil => simp [splitLines]
  | cons c rest ih =>
    by_cases hc : c = '\n'
    · subst hc
      rw [List.cons_append, splitLines_cons_newline, splitLines_cons_newline, ih,
        List.cons_append]
    · rw [List.cons_append, splitLines_cons_of_ne c _ hc, splitLines_cons_of_ne c _ hc, ih]
      cases hs : splitLines rest with
      | nil => exact absurd hs (splitLines_ne_nil rest)
      | cons l ls => simp

theorem joinLines_cons_cons (x y : Text) (L : List Text) :
    joinLines (x :: y :: L) = x ++ '\n' :: joinLines (y :: L) := rfl

theorem joinLines_cons_head (c : Char) (a : Text) (as : List Text) :
    joinLines ((c :: a) :: as) = c :: joinLines (a :: as) := by
  cases as with
  | nil => rfl
  | cons b bs => simp [joinLines_cons_cons]

theorem joinLines_splitLines (s : Text) : joinLines (splitLines s) = s := by
  induction s with
  | nil => rfl
  | cons c rest ih =>
    by_cases hc : c = '\n'
    · subst hc
      have : ('\n' :: rest : Text) = [] ++ '\n' :: rest := rfl
      rw [this, splitLines_append_newline]
      cases hs : splitLines rest with
      | nil => exact absurd hs (splitLines_ne_nil rest)
      | cons l ls =>
        simp only [splitLines, List.singleton_append, joinLines_cons_cons, List.nil_append]
        rw [← hs, ih]
    · rw [splitLines_cons_of_ne c _ hc]
      cases hs : splitLines rest with
      | nil => exact absurd hs (splitLines_ne_nil rest)
      | cons l ls =>
        simp only [hs, List.headI, List.tail, joinLines_cons_head]
        rw [← hs, ih]

theorem splitLines_no_newline (s : Text) (h : '\n' ∉ s) : splitLines s = [s] := by
  induction s with
  | nil => rfl
  | cons c rest ih =>
    have hc : c ≠ '\n' := fun hc => h (hc ▸ List.mem_cons_self c rest)
    rw [splitLines_cons_of_ne c _ hc, ih (fun hm => h (List.mem_cons_of_mem c hm))]
    simp

theorem splitLines_joinLines (L : List Text) (hne : L ≠ [])
    (h : ∀ l ∈ L, '\n' ∉ l) : splitLines (joinLines L) = L := by
  induction L with
  | nil => exact absurd rfl hne
  | cons x L ih =>
    cases L with
    | nil =>
      simp only [joinLines]
      exact splitLines_no_newline x (h x (by simp))
    | cons y L' =>
      rw [joinLines_cons_cons, splitLines_append_newline,
        splitLines_no_newline x (h x (by simp)),
        ih (by simp) (fun l hl => h l (List.mem_cons_of_mem x hl))]
      rfl

theorem lstrip_cons_ws (c : Char) (s : Text) (h : isWS c = true) :
    lstrip (c :: s) = lstrip s := by
  simp [lstrip, List.dropWhile_cons, h]

theorem rstrip_append_ws (c : Char) (s : Text) (h : isWS c = true) :
    rstrip (s ++ [c]) = rstrip s := by
  simp [rstrip, List.reverse_append, List.dropWhile_cons, h]

theorem strip_cons_ws (c : Char) (s : Text) (h : isWS c = true) :
    strip (c :: s) = strip s := by
  simp [strip, lstrip_cons_ws c s h]

theorem strip_append_ws (c : Char) (s : Text) (h : isWS c = true) :
    strip (s ++ [c]) = strip s := by
  unfold strip lstrip
  rw [List.dropWhile_append]
  split
  · next hemp =>
    simp only [List.isEmpty_iff] at hemp
    simp [hemp, List.dropWhile_cons, h, rstrip]
  · exact rstrip_append_ws c _ h

theorem strip_append_ws_list (s t : Text) (h : ∀ c ∈ t, isWS c = true) :
    strip (s ++ t) = strip s := by
  induction t generalizing s with
  | nil => simp
  | cons c t ih =>
    have : s ++ c :: t = (s ++ [c]) ++ t := by simp
    rw [this, ih (s ++ [c]) (fun d hd => h d (List.mem_cons_of_mem c hd)),
      strip_append_ws c s (h c (List.mem_cons_self c t))]

theorem lstrip_length_le (s : Text) : (lstrip s).length ≤ s.length :=
  (List.dropWhile_sublist isWS).length_le

theorem rstrip_length_le (s : Text) : (rstrip s).length ≤ s.length := by
  have := (List.dropWhile_sublist (l := s.reverse) isWS).length_le
  simpa [rstrip] using this

theorem strip_length_le (s : Text) : (strip s).length ≤ s.length :=
  le_trans (rstrip_length_le (lstrip s)) (lstrip_length_le s)

theorem head_not_ws_of_strip_eq (s : Text) (h : strip s = s) :
    ∀ c, s.head? = some c → isWS c = false := by
  intro c hc
  cases s with
  | nil => simp at hc
  | cons d t =>
    have hdc : d = c := by simpa using hc
    rw [← hdc]
    by_contra hws
    simp only [Bool.not_eq_false] at hws
    have h1 : strip (d :: t) = strip t := strip_cons_ws d t hws
    have h3 : strip t = d :: t := by rw [← h1, h]
    have h2 := strip_length_le t
    rw [h3, List.length_cons] at h2
    omega

theorem getLast_not_ws_of_strip_eq (s : Text) (h : strip s = s) :
    ∀ c, s.getLast? = some c → isWS c = false := by
  intro c hc
  rcases List.eq_nil_or_concat s with rfl | ⟨L, b, rfl⟩
  · simp at hc
  · rw [List.concat_eq_append, List.getLast?_concat] at hc
    have hbc : b = c := by simpa using hc
    rw [← hbc]
    by_contra hws
    simp only [Bool.not_eq_false] at hws
    have h1 : strip (L ++ [b]) = strip L := strip_append_ws b L hws
    have h2 := strip_length_le L
    rw [List.concat_eq_append, h1] at h
    have h3 : (strip L).length = L.length + 1 := by rw [h]; simp
    omega

theorem lstrip_eq_self_of_head (s : Text)
    (h : ∀ c, s.head? = some c → isWS c = false) : lstrip s = s := by
  cases s with
  | nil => rfl
  | cons c t =>
    have := h c (by simp)
    simp [lstrip, List.dropWhile_cons, this]

theorem rstrip_eq_self_of_getLast (s : Text)
    (h : ∀ c, s.getLast? = some c → isWS c = false) : rstrip s = s := by
  unfold rstrip
  cases hr : s.reverse with
  | nil => simp [List.reverse_eq_nil_iff.mp hr]
  | cons c t =>
    have hc : s.getLast? = some c := by
      rw [List.getLast?_eq_head?_reverse, hr]; rfl
    have := h c hc
    rw [List.dropWhile_cons, this]
    simp [← hr]

theorem strip_eq_self (s : Text)
    (hh : ∀ c, s.head? = some c → isWS c = false)
    (hl : ∀ c, s.getLast? = some c → isWS c = false) : strip s = s := by
  rw [strip, lstrip_eq_self_of_head s hh, rstrip_eq_self_of_getLast s hl]

theorem head_dropWhile_false (p : Char → Bool) (l : Text) (c : Char)
    (h : (l.dropWhile p).head? = some c) : p c = false := by
  have := List.head?_dropWhile_not p l
  rw [h] at this
  exact this

theorem mem_takeWhile_pred (p : Char → Bool) :
    ∀ (l : Text) (c : Char), c ∈ l.takeWhile p → p c = true := by
  intro l
  induction l with
  | nil => intro c hc; simp [List.takeWhile] at hc
  | cons d t ih =>
    intro c hc
    rw [List.takeWhile_cons] at hc
    by_cases hd : p d
    · rw [if_pos hd] at hc
      rcases List.mem_cons.mp hc with rfl | hc
      · exact hd
      · exact ih c hc
    · rw [if_neg hd] at hc; simp at hc

theorem rstrip_decomp (s : Text) :
    s = rstrip s ++ (s.reverse.takeWhile isWS).reverse ∧
      ∀ c ∈ (s.reverse.takeWhile isWS).reverse, isWS c = true := by
  constructor
  · conv_lhs => rw [← List.reverse_reverse s, ← List.takeWhile_append_dropWhile (p := isWS) (l := s.reverse)]
    rw [List.reverse_append, rstrip]
  · intro c hc
    rw [List.mem_reverse] at hc
    exact mem_takeWhile_pred isWS _ c hc

theorem head_not_ws_of_lstrip (s : Text) (c : Char)
    (h : (lstrip s).head? = some c) : isWS c = false :=
  head_dropWhile_false isWS s c h

theorem getLast_not_ws_of_rstrip (s : Text) (c : Char)
    (h : (rstrip s).getLast? = some c) : isWS c = false := by
  rw [rstrip, List.getLast?_reverse] at h
  exact head_dropWhile_false isWS s.reverse c h

theorem head_not_ws_of_strip (s : Text) (c : Char)
    (h : (strip s).head? = some c) : isWS c = false := by
  rw [strip] at h
  have hd := (rstrip_decomp (lstrip s)).1
  have hh : (lstrip s).head? = some c := by
    rw [hd, List.head?_append, h]
    rfl
  exact head_not_ws_of_lstrip s c hh

theorem getLast_not_ws_of_strip (s : Text) (c : Char)
    (h : (strip s).getLast? = some c) : isWS c = false :=
  getLast_not_ws_of_rstrip (lstrip s) c h

theorem strip_idem (s : Text) : strip (strip s) = strip s :=
  strip_eq_self (strip s) (head_not_ws_of_strip s) (getLast_not_ws_of_strip s)

theorem joinLines_append_last (L : List Text) (x : Text) (h : L ≠ []) :
    joinLines (L ++ [x]) = joinLines L ++ '\n' :: x := by
  induction L with
  | nil => exact absurd rfl h
  | cons y L ih =>
    cases L with
    | nil => rfl
    | cons z L' =>
      rw [List.cons_append, List.cons_append, joinLines_cons_cons, ← List.cons_append,
        ih (by simp), joinLines_cons_cons]
      simp

theorem joinLines_ne_nil_of_last (L : List Text) (e : Text) (he : e ≠ []) :
    joinLines (L ++ [e]) ≠ [] := by
  cases L with
  | nil => simpa [joinLines] using he
  | cons y L' =>
    rw [joinLines_append_last _ e (by simp)]
    simp

theorem joinLines_head?_of_ne (e : Text) (rest : List Text) (he : e ≠ []) :
    (joinLines (e :: rest)).head? = e.head? := by
  cases rest with
  | nil => rfl
  | cons y L =>
    rw [joinLines_cons_cons, List.head?_append]
    cases e with
    | nil => exact absurd rfl he
    | cons c t => rfl

theorem joinLines_getLast?_of_ne (L : List Text) (e : Text) (he : e ≠ []) :
    (joinLines (L ++ [e])).getLast? = e.getLast? := by
  cases L with
  | nil => rfl
  | cons y L' =>
    rw [joinLines_append_last _ e (by simp)]
    have : ('\n' :: e : Text) = ['\n'] ++ e := rfl
    rw [List.getLast?_append, this, List.getLast?_append]
    cases hg : e.getLast? with
    | none => exact absurd (List.getLast?_eq_none_iff.mp hg) he
    | some v => rfl

theorem strip_joinLines_eq (ss : List Text)
    (h : ∀ e ∈ ss, strip e = e ∧ e ≠ []) :
    strip (joinLines ss) = joinLines ss := by
  cases ss with
  | nil => rfl
  | cons e rest =>
    refine strip_eq_self _ ?_ ?_
    · intro c hc
      rw [joinLines_head?_of_ne e rest (h e (by simp)).2] at hc
      exact head_not_ws_of_strip_eq e (h e (by simp)).1 c hc
    · intro c hc
      obtain ⟨L, x, hx⟩ : ∃ L x, e :: rest = L ++ [x] := by
        rcases List.eq_nil_or_concat (e :: rest) with habs | ⟨L, x, hLx⟩
        · simp at habs
        · exact ⟨L, x, by simpa [List.concat_eq_append] using hLx⟩
      have hxm : x ∈ e :: rest := by rw [hx]; simp
      rw [hx, joinLines_getLast?_of_ne L x (h x hxm).2] at hc
      exact getLast_not_ws_of_strip_eq x (h x hxm).1 c hc

/-! Part: Lemmas about tag recognition -/

theorem dropPre_eq_some_iff (p : Text) :
    ∀ (l r : Text), dropPre p l = some r ↔ l = p ++ r := by
  induction p with
  | nil => intro l r; simp [dropPre]
  | cons a p ih =>
    intro l r
    cases l with
    | nil => simp [dropPre]
    | cons b l' =>
      show (if a = b then dropPre p l' else none) = some r ↔ _
      by_cases hab : a = b
      · subst hab
        rw [if_pos rfl, ih l' r, List.cons_append]
        simp
      · rw [if_neg hab]
        constructor
        · intro h; cases h
        · intro h
          rw [List.cons_append] at h
          injection h with h1 _
          exact absurd h1.symm hab

theorem tagOf_tagText (t : Tag) (r : Text) : tagOf (tagText t ++ r) = some (t, r) := by
  cases t <;> rfl

theorem eq_tagText_of_tagOf (l : Text) (t : Tag) (r : Text)
    (h : tagOf l = some (t, r)) : l = tagText t ++ r := by
  unfold tagOf at h
  split at h
  case _ r' heq =>
    cases h
    exact (dropPre_eq_some_iff _ l r).mp heq
  case _ =>
    split at h
    case _ r' heq =>
      cases h
      exact (dropPre_eq_some_iff _ l r).mp heq
    case _ =>
      split at h
      case _ r' heq =>
        cases h
        exact (dropPre_eq_some_iff _ l r).mp heq
      case _ =>
        split at h
        case _ r' heq =>
          cases h
          exact (dropPre_eq_some_iff _ l r).mp heq
        case _ =>
          split at h
          case _ r' heq =>
            cases h
            exact (dropPre_eq_some_iff _ l r).mp heq
          case _ =>
            split at h
            case _ r' heq =>
              cases h
              exact (dropPre_eq_some_iff _ l r).mp heq
            case _ => cases h

theorem tagText_getLast (t : Tag) : (tagText t).getLast? = some ']' := by
  cases t <;> rfl

theorem tagOf_append_ws (l : Text) (c : Char) (hc : isWS c = true) :
    tagOf (l ++ [c]) = (tagOf l).map (fun p => (p.1, p.2 ++ [c])) := by
  cases h : tagOf l with
  | some p =>
    obtain ⟨t, r⟩ := p
    rw [eq_tagText_of_tagOf l t r h, List.append_assoc, tagOf_tagText]
    rfl
  | none =>
    simp only [Option.map_none']
    cases h2 : tagOf (l ++ [c]) with
    | none => rfl
    | some p =>
      obtain ⟨t, r⟩ := p
      have hl := eq_tagText_of_tagOf _ t r h2
      rcases List.eq_nil_or_concat r with rfl | ⟨r', d, hr⟩
      · rw [List.append_nil] at hl
        have h3 : (tagText t).getLast? = some c := by
          rw [← hl, List.getLast?_concat]
        rw [tagText_getLast t] at h3
        have h4 : c = ']' := by
          have := Option.some.inj h3
          exact this.symm
        rw [h4] at hc
        exact absurd hc (by decide)
      · rw [hr, List.concat_eq_append, ← List.append_assoc] at hl
        obtain ⟨h5, h6⟩ := List.append_inj' hl rfl
        rw [h5, tagOf_tagText] at h
        cases h

/-! Part: Lemmas about the parsing pass -/

theorem parseGo_nil_some (t : Tag) (acc : List Text) :
    parseGo [] (some (t, acc)) = [(t, strip (joinLines acc))] := rfl

theorem parseGo_cons_tag_none (l : Text) (ls : List Text) (t : Tag) (r : Text)
    (h : tagOf l = some (t, r)) :
    parseGo (l :: ls) none = parseGo ls (some (t, [r])) := by
  simp only [parseGo, h]

theorem parseGo_cons_tag_some (l : Text) (ls : List Text) (t t' : Tag) (r : Text)
    (acc : List Text) (h : tagOf l = some (t, r)) :
    parseGo (l :: ls) (some (t', acc)) =
      (t', strip (joinLines acc)) :: parseGo ls (some (t, [r])) := by
  simp only [parseGo, h]

theorem parseGo_cons_notag_none (l : Text) (ls : List Text) (h : tagOf l = none) :
    parseGo (l :: ls) none = parseGo ls none := by
  simp only [parseGo, h]

theorem parseGo_cons_notag_some (l : Text) (ls : List Text) (t' : Tag)
    (acc : List Text) (h : tagOf l = none) :
    parseGo (l :: ls) (some (t', acc)) = parseGo ls (some (t', acc ++ [l])) := by
  simp only [parseGo, h]

theorem parseGo_skip_body (body : List Text) (h : ∀ x ∈ body, tagOf x = none) :
    ∀ (rest : List Text) (t : Tag) (acc : List Text),
      parseGo (body ++ rest) (some (t, acc)) = parseGo rest (some (t, acc ++ body)) := by
  induction body with
  | nil => intro rest t acc; simp
  | cons l body ih =>
    intro rest t acc
    rw [List.cons_append, parseGo_cons_notag_some _ _ _ _ (h l (by simp)),
      ih (fun x hx => h x (by simp [hx])) rest t (acc ++ [l]), List.append_assoc]
    rfl

theorem strip_join_append_blank (acc : List Text) :
    strip (joinLines (acc ++ [[]])) = strip (joinLines acc) := by
  cases acc with
  | nil => rfl
  | cons y L =>
    rw [joinLines_append_last _ _ (by simp)]
    have h : (joinLines (y :: L) ++ '\n' :: [] : Text) = joinLines (y :: L) ++ ['\n'] := rfl
    rw [h, strip_append_ws _ _ (by decide)]

theorem strip_join_append_ws (acc : List Text) (x : Text) (c : Char)
    (hc : isWS c = true) :
    strip (joinLines (acc ++ [x ++ [c]])) = strip (joinLines (acc ++ [x])) := by
  cases acc with
  | nil =>
    show strip (joinLines [x ++ [c]]) = strip (joinLines [x])
    show strip (x ++ [c]) = strip x
    exact strip_append_ws c x hc
  | cons y L =>
    rw [joinLines_append_last _ _ (by simp), joinLines_append_last _ _ (by simp)]
    have h : (joinLines (y :: L) ++ '\n' :: (x ++ [c]) : Text) =
        (joinLines (y :: L) ++ '\n' :: x) ++ [c] := by simp
    rw [h, strip_append_ws c _ hc]

theorem parseGo_append_blank :
    ∀ (lines : List Text) (cur : Option (Tag × List Text)),
      parseGo (lines ++ [[]]) cur = parseGo lines cur := by
  intro lines
  induction lines with
  | nil =>
    intro cur
    rcases cur with _ | ⟨t, acc⟩
    · rfl
    · show parseGo ([] :: []) (some (t, acc)) = _
      rw [parseGo_cons_notag_some ([] : Text) [] t acc rfl, parseGo_nil_some,
        parseGo_nil_some, strip_join_append_blank]
  | cons l lines ih =>
    intro cur
    rcases h : tagOf l with _ | ⟨t, r⟩ <;> rcases cur with _ | ⟨t', acc⟩
    · rw [List.cons_append, parseGo_cons_notag_none _ _ h,
        parseGo_cons_notag_none _ _ h, ih]
    · rw [List.cons_append, parseGo_cons_notag_some _ _ _ _ h,
        parseGo_cons_notag_some _ _ _ _ h, ih]
    · rw [List.cons_append, parseGo_cons_tag_none _ _ _ _ h,
        parseGo_cons_tag_none _ _ _ _ h, ih]
    · rw [List.cons_append, parseGo_cons_tag_some _ _ _ _ _ _ h,
        parseGo_cons_tag_some _ _ _ _ _ _ h, ih]

theorem parseGo_extend_last_ws (c : Char) (hc : isWS c = true) :
    ∀ (L : List Text) (x : Text) (cur : Option (Tag × List Text)),
      parseGo (L ++ [x ++ [c]]) cur = parseGo (L ++ [x]) cur := by
  intro L
  induction L with
  | nil =>
    intro x cur
    rcases h : tagOf x with _ | ⟨t, r⟩
    · have h2 : tagOf (x ++ [c]) = none := by
        rw [tagOf_append_ws x c hc, h]; rfl
      rcases cur with _ | ⟨t', acc⟩
      · show parseGo ((x ++ [c]) :: []) none = parseGo (x :: []) none
        rw [parseGo_cons_notag_none _ _ h2, parseGo_cons_notag_none _ _ h]
      · show parseGo ((x ++ [c]) :: []) (some (t', acc)) =
          parseGo (x :: []) (some (t', acc))
        rw [parseGo_cons_notag_some _ _ _ _ h2, parseGo_cons_notag_some _ _ _ _ h,
          parseGo_nil_some, parseGo_nil_some, strip_join_append_ws acc x c hc]
    · have h2 : tagOf (x ++ [c]) = some (t, r ++ [c]) := by
        rw [tagOf_append_ws x c hc, h]; rfl
      rcases cur with _ | ⟨t', acc⟩
      · show parseGo ((x ++ [c]) :: []) none = parseGo (x :: []) none
        rw [parseGo_cons_tag_none _ _ _ _ h2, parseGo_cons_tag_none _ _ _ _ h,
          parseGo_nil_some, parseGo_nil_some]
        show [(t, strip (r ++ [c]))] = [(t, strip r)]
        rw [strip_append_ws c r hc]
      · show parseGo ((x ++ [c]) :: []) (some (t', acc)) =
          parseGo (x :: []) (some (t', acc))
        rw [parseGo_cons_tag_some _ _ _ _ _ _ h2, parseGo_cons_tag_some _ _ _ _ _ _ h,
          parseGo_nil_some, parseGo_nil_some]
        show _ :: [(t, strip (r ++ [c]))] = _ :: [(t, strip r)]
        rw [strip_append_ws c r hc]
  | cons l L ih =>
    intro x cur
    rcases h : tagOf l with _ | ⟨t, r⟩ <;> rcases cur with _ | ⟨t', acc⟩
    · rw [List.cons_append, parseGo_cons_notag_none _ _ h, List.cons_append,
        parseGo_cons_notag_none _ _ h, ih]
    · rw [List.cons_append, parseGo_cons_notag_some _ _ _ _ h, List.cons_append,
        parseGo_cons_notag_some _ _ _ _ h, ih]
    · rw [List.cons_append, parseGo_cons_tag_none _ _ _ _ h, List.cons_append,
        parseGo_cons_tag_none _ _ _ _ h, ih]
    · rw [List.cons_append, parseGo_cons_tag_some _ _ _ _ _ _ h, List.cons_append,
        parseGo_cons_tag_some _ _ _ _ _ _ h, ih]

theorem splitLines_append_char (c : Char) (hc : c ≠ '\n') :
    ∀ s : Text, ∃ M x, splitLines s = M ++ [x] ∧
      splitLines (s ++ [c]) = M ++ [x ++ [c]] := by
  intro s
  induction s with
  | nil =>
    refine ⟨[], [], rfl, ?_⟩
    simp only [List.nil_append]
    rw [splitLines_cons_of_ne c [] hc]
    rfl
  | cons d s ih =>
    obtain ⟨M, x, h1, h2⟩ := ih
    by_cases hd : d = '\n'
    · subst hd
      refine ⟨[] :: M, x, ?_, ?_⟩
      · rw [splitLines_cons_newline, h1]; rfl
      · rw [List.cons_append, splitLines_cons_newline, h2]; rfl
    · cases M with
      | nil =>
        refine ⟨[], d :: x, ?_, ?_⟩
        · rw [splitLines_cons_of_ne d s hd, h1]; rfl
        · rw [List.cons_append, splitLines_cons_of_ne d _ hd, h2]; rfl
      | cons m M' =>
        refine ⟨(d :: m) :: M', x, ?_, ?_⟩
        · rw [splitLines_cons_of_ne d s hd, h1]; rfl
        · rw [List.cons_append, splitLines_cons_of_ne d _ hd, h2]; rfl

theorem parse_template_append_ws_char (s : Text) (c : Char) (h : isWS c = true) :
    parse_template (s ++ [c]) = parse_template s := by
  unfold parse_template
  by_cases hc : c = '\n'
  · subst hc
    rw [show (s ++ ['\n'] : Text) = s ++ '\n' :: [] from rfl,
      splitLines_append_newline, show splitLines [] = [[]] from rfl,
      parseGo_append_blank]
  · obtain ⟨M, x, h1, h2⟩ := splitLines_append_char c hc s
    rw [h2, parseGo_extend_last_ws c h, ← h1]

theorem parse_template_append_ws_list (s t : Text) (h : ∀ c ∈ t, isWS c = true) :
    parse_template (s ++ t) = parse_template s := by
  induction t generalizing s with
  | nil => simp
  | cons c t ih =>
    have hst : s ++ c :: t = (s ++ [c]) ++ t := by simp
    rw [hst, ih (s ++ [c]) (fun d hd => h d (List.mem_cons_of_mem c hd)),
      parse_template_append_ws_char s c (h c (List.mem_cons_self c t))]

theorem parse_template_strip (s : Text)
    (hh : ∀ c, s.head? = some c → isWS c = false) :
    parse_template (strip s) = parse_template s := by
  rw [strip, lstrip_eq_self_of_head s hh]
  obtain ⟨hd, hws⟩ := rstrip_decomp s
  conv_rhs => rw [hd]
  rw [parse_template_append_ws_list _ _ hws]

/-! Part: Parsing one serialized section block -/

theorem tagOf_tagText_nil (tg : Tag) : tagOf (tagText tg) = some (tg, []) := by
  have h := tagOf_tagText tg []
  rwa [List.append_nil] at h

theorem head?_tagText_append (tg : Tag) (X : Text) :
    (tagText tg ++ X).head? = some '[' := by
  cases tg <;> rfl

theorem splitLines_tagText (tg : Tag) : splitLines (tagText tg) = [tagText tg] := by
  cases tg <;> rfl

theorem splitLines_tag_seg (tg : Tag) (v rest : Text) :
    splitLines (tagText tg ++ '\n' :: (v ++ '\n' :: '\n' :: rest)) =
      tagText tg :: (splitLines v ++ [] :: splitLines rest) := by
  rw [splitLines_append_newline, splitLines_tagText, splitLines_append_newline,
    splitLines_cons_newline]
  rfl

theorem splitLines_scripts_seg (ss : List Text) :
    splitLines (tagText .scripts ++ '\n' :: (joinLines ss ++ ['\n'])) =
      tagText .scripts :: (splitLines (joinLines ss) ++ [[]]) := by
  rw [splitLines_append_newline, splitLines_tagText,
    show (joinLines ss ++ ['\n'] : Text) = joinLines ss ++ '\n' :: [] from rfl,
    splitLines_append_newline]
  rfl

theorem parseGo_first_block (tg : Tag) (v : Text) (rest : List Text)
    (hv : ∀ l ∈ splitLines v, tagOf l = none) :
    parseGo (tagText tg :: (splitLines v ++ [] :: rest)) none =
      parseGo rest (some (tg, ([] :: splitLines v) ++ [[]])) := by
  rw [parseGo_cons_tag_none _ _ tg [] (tagOf_tagText_nil tg),
    parseGo_skip_body (splitLines v) hv ([] :: rest) tg [[]],
    parseGo_cons_notag_some ([] : Text) rest tg ([[]] ++ splitLines v) rfl]
  rfl

theorem parseGo_mid_block (tg tg' : Tag) (v : Text) (acc : List Text)
    (rest : List Text) (hv : ∀ l ∈ splitLines v, tagOf l = none) :
    parseGo (tagText tg :: (splitLines v ++ [] :: rest)) (some (tg', acc)) =
      (tg', strip (joinLines acc)) ::
        parseGo rest (some (tg, ([] :: splitLines v) ++ [[]])) := by
  rw [parseGo_cons_tag_some _ _ tg tg' [] acc (tagOf_tagText_nil tg),
    parseGo_skip_body (splitLines v) hv ([] :: rest) tg [[]],
    parseGo_cons_notag_some ([] : Text) rest tg ([[]] ++ splitLines v) rfl]
  rfl

theorem parseGo_final_blank (tg' : Tag) (acc : List Text) :
    parseGo [[]] (some (tg', acc)) = [(tg', strip (joinLines acc))] := by
  rw [show ([[]] : List Text) = ([] : Text) :: [] from rfl,
    parseGo_cons_notag_some ([] : Text) [] tg' acc rfl, parseGo_nil_some,
    strip_join_append_blank]

theorem strip_join_block (v : Text) :
    strip (joinLines (([] :: splitLines v) ++ [[]])) = strip v := by
  rw [strip_join_append_blank]
  cases hs : splitLines v with
  | nil => exact absurd hs (splitLines_ne_nil v)
  | cons l ls =>
    rw [joinLines_cons_cons, List.nil_append, strip_cons_ws '\n' _ (by decide),
      ← hs, joinLines_splitLines]

theorem head_not_ws_of_tagText_append (tg : Tag) (X : Text) :
    ∀ c, (tagText tg ++ X).head? = some c → isWS c = false := by
  intro c hc
  rw [head?_tagText_append] at hc
  rw [← Option.some.inj hc]
  decide

/-- Parsing the text written by the reconstruction loop of `save_draft` for
given section values: when no line of any value is a recognized tag line,
each emitted section parses back to its stripped value, and the scripts
section (emitted only for a non-empty list) parses back to the line split of
its stripped joined content. -/
theorem parse_serialize_core (vi vt vd vp vf : Text) (ss : List Text)
    (hi : ∀ l ∈ splitLines vi, tagOf l = none)
    (ht : ∀ l ∈ splitLines vt, tagOf l = none)
    (hdo : ∀ l ∈ splitLines vd, tagOf l = none)
    (hp : ∀ l ∈ splitLines vp, tagOf l = none)
    (hf : ∀ l ∈ splitLines vf, tagOf l = none)
    (hs : ∀ l ∈ splitLines (joinLines ss), tagOf l = none) :
    parse_template (strip (emitOne .introduction vi ++ emitOne .testing vt ++
        emitOne .documentation vd ++ emitOne .conclusionPass vp ++
        emitOne .conclusionFail vf ++ scriptsPart ss)) =
      { introduction := some (strip vi), testing := some (strip vt),
        documentation := some (strip vd), conclusionPass := some (strip vp),
        conclusionFail := some (strip vf),
        scripts := if ss = [] then none
                   else some (scriptsVal (strip (joinLines ss))) } := by
  have hassoc : emitOne .introduction vi ++ emitOne .testing vt ++
      emitOne .documentation vd ++ emitOne .conclusionPass vp ++
      emitOne .conclusionFail vf ++ scriptsPart ss =
      tagText .introduction ++ '\n' :: (vi ++ '\n' :: '\n' ::
        (tagText .testing ++ '\n' :: (vt ++ '\n' :: '\n' ::
          (tagText .documentation ++ '\n' :: (vd ++ '\n' :: '\n' ::
            (tagText .conclusionPass ++ '\n' :: (vp ++ '\n' :: '\n' ::
              (tagText .conclusionFail ++ '\n' ::
                (vf ++ '\n' :: '\n' :: scriptsPart ss))))))))) := by
    simp [emitOne, List.append_assoc]
  rw [hassoc, parse_template_strip _ (head_not_ws_of_tagText_append .introduction _)]
  unfold parse_template
  rw [splitLines_tag_seg, splitLines_tag_seg, splitLines_tag_seg, splitLines_tag_seg,
    splitLines_tag_seg]
  by_cases hempty : ss = []
  · subst hempty
    rw [show scriptsPart [] = [] from rfl, show splitLines ([] : Text) = [[]] from rfl,
      parseGo_first_block .introduction vi _ hi,
      parseGo_mid_block .testing .introduction vt _ _ ht,
      parseGo_mid_block .documentation .testing vd _ _ hdo,
      parseGo_mid_block .conclusionPass .documentation vp _ _ hp,
      parseGo_mid_block .conclusionFail .conclusionPass vf _ _ hf,
      parseGo_final_blank]
    simp only [strip_join_block]
    rfl
  · rw [show scriptsPart ss = tagText .scripts ++ '\n' :: (joinLines ss ++ ['\n'])
        from by rw [scriptsPart, if_neg hempty],
      splitLines_scripts_seg,
      parseGo_first_block .introduction vi _ hi,
      parseGo_mid_block .testing .introduction vt _ _ ht,
      parseGo_mid_block .documentation .testing vd _ _ hdo,
      parseGo_mid_block .conclusionPass .documentation vp _ _ hp,
      parseGo_mid_block .conclusionFail .conclusionPass vf _ _ hf,
      parseGo_mid_block .scripts .conclusionFail (joinLines ss) _ _ hs,
      parseGo_nil_some]
    simp only [strip_join_block]
    rw [if_neg hempty]
    rfl

/-! Part: Invariants of parsed section maps -/

theorem parseGo_blocks_stripped :
    ∀ (lines : List Text) (cur : Option (Tag × List Text)) (b : Tag × Text),
      b ∈ parseGo lines cur → strip b.2 = b.2 := by
  intro lines
  induction lines with
  | nil =>
    intro cur b hb
    rcases cur with _ | ⟨t, acc⟩
    · simp [parseGo] at hb
    · rw [parseGo_nil_some] at hb
      rcases List.mem_singleton.mp hb with rfl
      exact strip_idem _
  | cons l ls ih =>
    intro cur b hb
    rcases h : tagOf l with _ | ⟨t, r⟩ <;> rcases cur with _ | ⟨t', acc⟩
    · rw [parseGo_cons_notag_none _ _ h] at hb
      exact ih none b hb
    · rw [parseGo_cons_notag_some _ _ _ _ h] at hb
      exact ih _ b hb
    · rw [parseGo_cons_tag_none _ _ _ _ h] at hb
      exact ih _ b hb
    · rw [parseGo_cons_tag_some _ _ _ _ _ _ h] at hb
      rcases List.mem_cons.mp hb with rfl | hb2
      · exact strip_idem _
      · exact ih _ b hb2

theorem parse_template_fold_inv (P : Sections → Prop) (h0 : P {})
    (hstep : ∀ (acc : Sections) (t : Tag) (c : Text),
      strip c = c → P acc → P (setSection acc t c)) :
    ∀ x : Text, P (parse_template x) := by
  intro x
  unfold parse_template
  have hgen : ∀ (blocks : List (Tag × Text)) (init : Sections),
      (∀ b ∈ blocks, strip b.2 = b.2) → P init →
      P (blocks.foldl (fun acc b => setSection acc b.1 b.2) init) := by
    intro blocks
    induction blocks with
    | nil => intro init _ h; exact h
    | cons b bs ih =>
      intro init hstr hinit
      exact ih _ (fun b' hb' => hstr b' (by simp [hb']))
        (hstep init b.1 b.2 (hstr b (by simp)) hinit)
  exact hgen _ _ (fun b hb => parseGo_blocks_stripped _ _ b hb) h0

/-- Every value a parsed section map holds is in the image of the content
computation: string sections are stripped strings and the scripts list is the
exact line split of its own stripped joined text. -/
theorem parse_sections_invariant (x : Text) :
    (∀ v, (parse_template x).introduction = some v → strip v = v) ∧
    (∀ v, (parse_template x).testing = some v → strip v = v) ∧
    (∀ v, (parse_template x).documentation = some v → strip v = v) ∧
    (∀ v, (parse_template x).conclusionPass = some v → strip v = v) ∧
    (∀ v, (parse_template x).conclusionFail = some v → strip v = v) ∧
    (∀ ss, (parse_template x).scripts = some ss →
      ss = scriptsVal (strip (joinLines ss))) := by
  refine parse_template_fold_inv
    (fun s =>
      (∀ v, s.introduction = some v → strip v = v) ∧
      (∀ v, s.testing = some v → strip v = v) ∧
      (∀ v, s.documentation = some v → strip v = v) ∧
      (∀ v, s.conclusionPass = some v → strip v = v) ∧
      (∀ v, s.conclusionFail = some v → strip v = v) ∧
      (∀ ss, s.scripts = some ss → ss = scriptsVal (strip (joinLines ss))))
    ?_ ?_ x
  · refine ⟨?_, ?_, ?_, ?_, ?_, ?_⟩ <;> intro v h <;> simp at h
  · intro acc t c hc hP
    obtain ⟨p1, p2, p3, p4, p5, p6⟩ := hP
    have hscripts : scriptsVal c = scriptsVal (strip (joinLines (scriptsVal c))) := by
      by_cases hc0 : c = []
      · subst hc0; rfl
      · rw [scriptsVal, if_neg hc0, joinLines_splitLines, hc, scriptsVal, if_neg hc0]
    cases t
    · exact ⟨fun v hv => by cases hv; exact hc, p2, p3, p4, p5, p6⟩
    · exact ⟨p1, fun v hv => by cases hv; exact hc, p3, p4, p5, p6⟩
    · exact ⟨p1, p2, fun v hv => by cases hv; exact hc, p4, p5, p6⟩
    · exact ⟨p1, p2, p3, p4, fun v hv => by cases hv; exact hc, p6⟩
    · exact ⟨p1, p2, p3, fun v hv => by cases hv; exact hc, p5, p6⟩
    · exact ⟨p1, p2, p3, p4, p5, fun ss hss => by cases hss; exact hscripts⟩

theorem strip_join_head_split (v : Text) :
    strip (joinLines ([] :: splitLines v)) = strip v := by
  cases hs : splitLines v with
  | nil => exact absurd hs (splitLines_ne_nil v)
  | cons l ls =>
    rw [joinLines_cons_cons, List.nil_append, strip_cons_ws '\n' _ (by decide),
      ← hs, joinLines_splitLines]

/-- Parsing a text made of a single recognized tag line followed by tag-free
content assigns exactly that one section, with stripped content. -/
theorem parse_single_section (tg : Tag) (y : Text)
    (hy : ∀ l ∈ splitLines y, tagOf l = none) :
    parse_template (tagText tg ++ '\n' :: y) = setSection {} tg (strip y) := by
  unfold parse_template
  rw [splitLines_append_newline, splitLines_tagText,
    show ([tagText tg] ++ splitLines y : List Text) = tagText tg :: splitLines y from rfl,
    parseGo_cons_tag_none _ _ tg [] (tagOf_tagText_nil tg),
    show splitLines y = splitLines y ++ [] from (List.append_nil _).symm,
    parseGo_skip_body (splitLines y) hy [] tg [[]], parseGo_nil_some,
    show ([[]] ++ splitLines y : List Text) = [] :: splitLines y from rfl,
    strip_join_head_split]
  rfl

theorem joinLines_ne_nil_entries (ss : List Text) (hne : ss ≠ [])
    (h : ∀ e ∈ ss, e ≠ []) : joinLines ss ≠ [] := by
  cases ss with
  | nil => exact absurd rfl hne
  | cons e rest =>
    cases rest with
    | nil => exact h e (by simp)
    | cons y L => rw [joinLines_cons_cons]; simp

/-! Part: Lemmas about the category resolver -/

theorem categoryOfAsset_congr (a b : Text) (h : lowerText a = lowerText b) :
    categoryOfAsset a = categoryOfAsset b := by
  unfold categoryOfAsset
  rw [h]

theorem findSome?_categoryOfAsset_congr :
    ∀ (l₁ l₂ : List Text), l₁.map lowerText = l₂.map lowerText →
      l₁.findSome? categoryOfAsset = l₂.findSome? categoryOfAsset := by
  intro l₁
  induction l₁ with
  | nil =>
    intro l₂ h
    cases l₂ with
    | nil => rfl
    | cons b l₂ => simp at h
  | cons a l₁ ih =>
    intro l₂ h
    cases l₂ with
    | nil => simp at h
    | cons b l₂ =>
      simp only [List.map_cons, List.cons.injEq] at h
      rw [List.findSome?_cons, List.findSome?_cons, categoryOfAsset_congr a b h.1,
        ih l₂ h.2]

/-! Part: Lemmas about the pagination loop -/

theorem fetchPages_auth {M : Type} (pages : Nat → PageResult M) (i : Nat) :
    ∀ (fuel page : Nat) (acc : List M) (req : Nat), page ≤ i → i < page + fuel →
      (∀ j, page ≤ j → j < i → ∃ l, pages j = .ok l ∧ ¬ l.length < perPage) →
      pages i = .unauthorized →
      fetchPages pages fuel page acc req = .authFailure (req + (i - page) + 1) := by
  intro fuel
  induction fuel with
  | zero => intro page acc req h1 h2 _ _; omega
  | succ fuel ih =>
    intro page acc req hpi hlt hfull h401
    by_cases heq : page = i
    · subst heq
      have harith : req + (page - page) + 1 = req + 1 := by omega
      rw [harith]
      simp only [fetchPages, h401]
    · have hlt2 : page < i := lt_of_le_of_ne hpi heq
      obtain ⟨l, hok, hlen⟩ := hfull page (le_refl page) hlt2
      simp only [fetchPages, hok, if_neg hlen]
      have hrec := ih (page + 1) (acc ++ l) (req + 1) (by omega) (by omega)
        (fun j hj1 hj2 => hfull j (by omega) hj2) h401
      rw [hrec]
      have harith : req + 1 + (i - (page + 1)) + 1 = req + (i - page) + 1 := by omega
      rw [harith]

/-! Part: Claim theorems -/

/-- C1 (counterexample): the round trip fails as stated.  A section map whose
only key is `Introduction` with the (trimmed, single-line) content
`[Testing]` does not survive `parse(serialize(map))`: the serialized content
line re-parses as a tag boundary, so the Introduction key comes back empty
instead of reproducing the content. -/
theorem c1_round_trip_cex :
    (parse_template (serializeSections
        { introduction := some "[Testing]".data })).introduction ≠
      some "[Testing]".data := by decide

/-- C1 (amended): for a section map whose string values are stripped and
contain no line beginning with a recognized tag, and whose scripts entries
are stripped, non-empty, single-line and not tag lines, parsing the
serialized form reproduces the content of every key present: each string key
parses back to its exact value and the scripts key to its exact entry
list. -/
theorem c1_round_trip (m : Sections)
    (hi : strip (m.introduction.getD []) = m.introduction.getD [])
    (hi2 : ∀ l ∈ splitLines (m.introduction.getD []), tagOf l = none)
    (ht : strip (m.testing.getD []) = m.testing.getD [])
    (ht2 : ∀ l ∈ splitLines (m.testing.getD []), tagOf l = none)
    (hdo : strip (m.documentation.getD []) = m.documentation.getD [])
    (hdo2 : ∀ l ∈ splitLines (m.documentation.getD []), tagOf l = none)
    (hp : strip (m.conclusionPass.getD []) = m.conclusionPass.getD [])
    (hp2 : ∀ l ∈ splitLines (m.conclusionPass.getD []), tagOf l = none)
    (hf : strip (m.conclusionFail.getD []) = m.conclusionFail.getD [])
    (hf2 : ∀ l ∈ splitLines (m.conclusionFail.getD []), tagOf l = none)
    (hs : ∀ e ∈ m.scripts.getD [], strip e = e ∧ e ≠ [] ∧ '\n' ∉ e ∧ tagOf e = none) :
    (parse_template (serializeSections m)).introduction = some (m.introduction.getD []) ∧
    (parse_template (serializeSections m)).testing = some (m.testing.getD []) ∧
    (parse_template (serializeSections m)).documentation = some (m.documentation.getD []) ∧
    (parse_template (serializeSections m)).conclusionPass = some (m.conclusionPass.getD []) ∧
    (parse_template (serializeSections m)).conclusionFail = some (m.conclusionFail.getD []) ∧
    (parse_template (serializeSections m)).scripts.getD [] = m.scripts.getD [] := by
  have hss : ∀ l ∈ splitLines (joinLines (m.scripts.getD [])), tagOf l = none := by
    by_cases h0 : m.scripts.getD [] = []
    · rw [h0]
      intro l hl
      have : l = [] := by simpa [joinLines, splitLines] using hl
      rw [this]; rfl
    · rw [splitLines_joinLines _ h0 (fun e he => (hs e he).2.2.1)]
      intro l hl
      exact (hs l hl).2.2.2
  unfold serializeSections
  rw [parse_serialize_core _ _ _ _ _ _ hi2 ht2 hdo2 hp2 hf2 hss]
  refine ⟨by simp [hi], by simp [ht], by simp [hdo], by simp [hp], by simp [hf], ?_⟩
  show (if m.scripts.getD [] = [] then none
      else some (scriptsVal (strip (joinLines (m.scripts.getD []))))).getD [] =
    m.scripts.getD []
  by_cases h0 : m.scripts.getD [] = []
  · rw [if_pos h0, h0]; rfl
  · rw [if_neg h0,
      strip_joinLines_eq _ (fun e he => ⟨(hs e he).1, (hs e he).2.1⟩),
      scriptsVal, if_neg (joinLines_ne_nil_entries _ h0 (fun e he => (hs e he).2.1)),
      splitLines_joinLines _ h0 (fun e he => (hs e he).2.2.1)]
    rfl

/-- C1 (witness): the amended round trip at a concrete section map holding
all six keys. -/
theorem c1_round_trip_witness :
    (parse_template (serializeSections
        { introduction := some "hello".data, testing := some "steps".data,
          documentation := some "docs".data, conclusionPass := some "ok".data,
          conclusionFail := some [],
          scripts := some ["ls -la".data, "id".data] })).introduction =
      some "hello".data ∧
    (parse_template (serializeSections
        { introduction := some "hello".data, testing := some "steps".data,
          documentation := some "docs".data, conclusionPass := some "ok".data,
          conclusionFail := some [],
          scripts := some ["ls -la".data, "id".data] })).scripts.getD [] =
      ["ls -la".data, "id".data] := by
  have h := c1_round_trip
    { introduction := some "hello".data, testing := some "steps".data,
      documentation := some "docs".data, conclusionPass := some "ok".data,
      conclusionFail := some [], scripts := some ["ls -la".data, "id".data] }
    (by decide) (by decide) (by decide) (by decide) (by decide) (by decide)
    (by decide) (by decide) (by decide) (by decide) (by decide)
  exact ⟨h.1, h.2.2.2.2.2⟩

/-- C7 (counterexample): tag recognition is not case-insensitive.  The
lowercase form `[introduction]` and the uppercase form `[SCRIPTS]` do not
start sections, while the fixed-case forms do. -/
theorem c7_case_cex :
    (parse_template "[SCRIPTS]\nfoo".data).scripts = none ∧
    (parse_template "[Scripts]\nfoo".data).scripts = some ["foo".data] ∧
    (parse_template "[introduction]\nx".data).introduction = none ∧
    (parse_template "[Introduction]\nx".data).introduction = some "x".data := by
  decide

/-- C7 (amended): the section tags are recognized case-sensitively, in
exactly the six fixed spellings: a line starts a section if and only if it
begins with the fixed-case `[Tag]` text. -/
theorem c7_fixed_case_tags :
    (∀ (l : Text) (t : Tag) (r : Text), tagOf l = some (t, r) → l = tagText t ++ r) ∧
    (∀ (t : Tag) (r : Text), tagOf (tagText t ++ r) = some (t, r)) :=
  ⟨eq_tagText_of_tagOf, tagOf_tagText⟩

/-- C7 (witness): the characterization applied to a concrete line. -/
theorem c7_fixed_case_tags_witness :
    ("[Scripts]xyz".data : Text) = tagText .scripts ++ "xyz".data ∧
    tagOf (tagText .introduction ++ "rest".data) = some (.introduction, "rest".data) :=
  ⟨c7_fixed_case_tags.1 "[Scripts]xyz".data .scripts "xyz".data (by decide),
   c7_fixed_case_tags.2 .introduction "rest".data⟩

/-- C8 (counterexample): the scripts value can contain empty entries.  A
Scripts section whose trimmed content has an interior blank line parses to a
list with an empty string in the middle, contradicting `a list of strings
containing no empty entries`. -/
theorem c8_scripts_cex :
    (parse_template "[Scripts]\na\n\nb".data).scripts =
      some [['a'], [], ['b']] := by decide

/-- C8 (amended): the scripts key holds all lines of the section's trimmed
content (interior empty lines included, `[]` when the trimmed content is
empty), while every other recognized section yields a single trimmed
string. -/
theorem c8_scripts_all_lines (y : Text)
    (hy : ∀ l ∈ splitLines y, tagOf l = none) :
    (parse_template (tagText .scripts ++ '\n' :: y)).scripts =
      some (scriptsVal (strip y)) ∧
    (parse_template (tagText .introduction ++ '\n' :: y)).introduction =
      some (strip y) ∧
    (∀ x ss, (parse_template x).scripts = some ss →
      ss = scriptsVal (strip (joinLines ss))) ∧
    (∀ x v, (parse_template x).introduction = some v → strip v = v) ∧
    (∀ x v, (parse_template x).testing = some v → strip v = v) ∧
    (∀ x v, (parse_template x).documentation = some v → strip v = v) ∧
    (∀ x v, (parse_template x).conclusionPass = some v → strip v = v) ∧
    (∀ x v, (parse_template x).conclusionFail = some v → strip v = v) := by
  refine ⟨?_, ?_, fun x => (parse_sections_invariant x).2.2.2.2.2,
    fun x => (parse_sections_invariant x).1,
    fun x => (parse_sections_invariant x).2.1,
    fun x => (parse_sections_invariant x).2.2.1,
    fun x => (parse_sections_invariant x).2.2.2.1,
    fun x => (parse_sections_invariant x).2.2.2.2.1⟩
  · rw [parse_single_section .scripts y hy]; rfl
  · rw [parse_single_section .introduction y hy]; rfl

/-- C8 (witness): the amended statement at the concrete content
`a\n\nb`, whose parse keeps the interior empty line. -/
theorem c8_scripts_all_lines_witness :
    (parse_template (tagText .scripts ++ '\n' :: "a\n\nb".data)).scripts =
      some (scriptsVal (strip "a\n\nb".data)) ∧
    (parse_template (tagText .introduction ++ '\n' :: "a\n\nb".data)).introduction =
      some (strip "a\n\nb".data) := by
  have h := c8_scripts_all_lines "a\n\nb".data (by decide)
  exact ⟨h.1, h.2.1⟩

/-- C9 (confirmed): `determine_category` returns `host`, `web`, `web`, `web`
and `sv2m` on the spec's four concrete inputs and on an absent list; it
defaults to `web` on a list with no matching element; and the match is
case-insensitive: asset lists equal up to lowercasing resolve to the same
category. -/
theorem c9_determine_category :
    determine_category (some ["Host Pentest".data]) = .host ∧
    determine_category (some ["Web App".data]) = .web ∧
    determine_category (some []) = .web ∧
    determine_category none = .web ∧
    determine_category (some ["SV2M Target".data]) = .sv2m ∧
    (∀ l, (∀ a ∈ l, categoryOfAsset a = none) →
      determine_category (some l) = .web) ∧
    (∀ l₁ l₂, l₁.map lowerText = l₂.map lowerText →
      determine_category (some l₁) = determine_category (some l₂)) := by
  refine ⟨by decide, by decide, by decide, by decide, by decide, ?_, ?_⟩
  · intro l hl
    have h : l.findSome? categoryOfAsset = none := by
      induction l with
      | nil => rfl
      | cons a l ih =>
        rw [List.findSome?_cons, hl a (by simp)]
        exact ih (fun a' ha' => hl a' (by simp [ha']))
    show (l.findSome? categoryOfAsset).getD Category.web = Category.web
    rw [h]
    rfl
  · intro l₁ l₂ h
    show (l₁.findSome? categoryOfAsset).getD Category.web =
      (l₂.findSome? categoryOfAsset).getD Category.web
    rw [findSome?_categoryOfAsset_congr l₁ l₂ h]

/-- C9 (witness): the defaulting and the case-insensitivity at concrete
asset lists. -/
theorem c9_determine_category_witness :
    determine_category (some ["Recon Thing".data]) = .web ∧
    determine_category (some ["HOST PENTEST".data]) =
      determine_category (some ["host pentest".data]) :=
  ⟨c9_determine_category.2.2.2.2.2.1 ["Recon Thing".data] (by decide),
   c9_determine_category.2.2.2.2.2.2 ["HOST PENTEST".data] ["host pentest".data]
     (by decide)⟩

/-- C3 (counterexample): the initial load is not unconditional.  On a fresh
process whose `tasks.json` is empty, with a valid token present, the first
call goes straight to the network: one page request is made, the source is
`api`, and the initial-load flag is still unset. -/
theorem c3_initial_cache_cex :
    (get_all_missions (M := Nat) false
        { hasLoadedInitial := false, cachedMissions := none, lastFetchTime := 0 }
        { token := some "tok", disk := [], diskMtime := 0, now := 5,
          pages := fun _ => .ok [1, 2] } 1).map
      (fun r => (r.status.source, r.requests, r.state.hasLoadedInitial)) =
      some (.api, 1, false) := by decide

/-- C3 (amended): on the very first call after startup, provided the on-disk
cache file is non-empty, the mission list is returned from it with no page
request, the initial-load flag is set, and the status is success with source
`initial_cache` — regardless of the token and even under `force_refresh`.
An empty or missing cache file instead falls through to the fetch path. -/
theorem c3_initial_cache_load {M : Type} (force : Bool) (st : CacheState M)
    (env : Env M) (fuel : Nat) (h1 : st.hasLoadedInitial = false)
    (h2 : env.disk ≠ []) :
    get_all_missions force st env fuel =
      some { missions := env.disk
             status := { success := true, source := .initial_cache, error := none }
             state := { hasLoadedInitial := true, cachedMissions := some env.disk,
                        lastFetchTime := env.diskMtime }
             disk := env.disk, requests := 0 } := by
  unfold get_all_missions
  rw [if_pos ⟨by simp [h1], by simp [List.isEmpty_iff, h2]⟩]

/-- C3 (witness): the amended claim at a concrete fresh state with a
non-empty disk cache, a valid token, and even a forced refresh. -/
theorem c3_initial_cache_load_witness :
    get_all_missions (M := Nat) true
        { hasLoadedInitial := false, cachedMissions := none, lastFetchTime := 0 }
        { token := some "tok", disk := [7, 8], diskMtime := 3, now := 9,
          pages := fun _ => .ok [1] } 1 =
      some { missions := [7, 8]
             status := { success := true, source := .initial_cache, error := none }
             state := { hasLoadedInitial := true, cachedMissions := some [7, 8],
                        lastFetchTime := 3 }
             disk := [7, 8], requests := 0 } :=
  c3_initial_cache_load true _ _ 1 rfl (by decide)

/-- C4 (counterexample): a 401 is not raised to the caller.  The `Exception`
raised in the 401 branch is caught by the function's own outer handler, so
the call returns normally with the same `cache_fallback` shape as a network
failure (only the error string differs). -/
theorem c4_unauthorized_cex :
    (get_all_missions (M := Nat) true
        { hasLoadedInitial := true, cachedMissions := some [5], lastFetchTime := 0 }
        { token := some "tok", disk := [9], diskMtime := 0, now := 0,
          pages := fun _ => .unauthorized } 1).map
      (fun r => (r.status.success, r.status.source, r.missions, r.status.error)) =
      some (false, .cache_fallback, [9],
        some "Error fetching tasks: API call failed please check authentication") ∧
    (get_all_missions (M := Nat) true
        { hasLoadedInitial := true, cachedMissions := some [5], lastFetchTime := 0 }
        { token := some "tok", disk := [9], diskMtime := 0, now := 0,
          pages := fun _ => .netError "boom" } 1).map
      (fun r => r.status.source) = some .cache_fallback := by decide

/-- C4 (amended): a 401 on any reachable page aborts the pagination loop (no
further page is requested) and the resulting exception is caught inside
`get_all_missions`, which returns the on-disk cache with `success = false`,
source `cache_fallback`, and the authentication-specific error string
`Error fetching tasks: API call failed please check authentication` —
distinct from the network-failure message but a normal return, not an
exception propagated to the caller. -/
theorem c4_unauthorized_aborts {M : Type} (st : CacheState M) (env : Env M)
    (fuel i : Nat) (tok : String)
    (h1 : st.hasLoadedInitial = true) (htok : env.token = some tok)
    (hi : 1 ≤ i)
    (hfull : ∀ j, 1 ≤ j → j < i → ∃ l, env.pages j = .ok l ∧ ¬ l.length < perPage)
    (h401 : env.pages i = .unauthorized) (hfuel : i ≤ fuel) :
    get_all_missions true st env fuel =
      some { missions := env.disk
             status := { success := false, source := .cache_fallback,
                         error := some "Error fetching tasks: API call failed please check authentication" }
             state := st, disk := env.disk, requests := i } := by
  unfold get_all_missions
  rw [if_neg (by simp [h1]), if_neg (by simp), htok,
    fetchPages_auth env.pages i fuel 1 [] 0 hi (by omega) hfull h401]
  have harith : 0 + (i - 1) + 1 = i := by omega
  rw [harith]

/-- C4 (witness): the amended claim with a full first page and a 401 on the
second; the loop stops after exactly two requests. -/
theorem c4_unauthorized_aborts_witness :
    get_all_missions (M := Nat) true
        { hasLoadedInitial := true, cachedMissions := some [5], lastFetchTime := 0 }
        { token := some "tok", disk := [9], diskMtime := 0, now := 0,
          pages := fun p => if p = 1 then .ok (List.range 20) else .unauthorized } 3 =
      some { missions := [9]
             status := { success := false, source := .cache_fallback,
                         error := some "Error fetching tasks: API call failed please check authentication" }
             state := { hasLoadedInitial := true, cachedMissions := some [5],
                        lastFetchTime := 0 }
             disk := [9], requests := 2 } :=
  c4_unauthorized_aborts _ _ 3 2 "tok" rfl rfl (by decide)
    (by
      intro j hj1 hj2
      have hj : j = 1 := by omega
      subst hj
      exact ⟨List.range 20, rfl, by decide⟩)
    rfl (by decide)

/-- C5 (confirmed): during a forced remote fetch, a network-level failure on
any page, and a loop that completes with zero accumulated tasks, both make
`get_all_missions` return the on-disk cache contents with `success = false`,
source `cache_fallback` and the captured error string; the in-memory cache
state and the on-disk file are left unchanged. -/
theorem c5_fetch_fallback {M : Type} (st : CacheState M) (env : Env M)
    (fuel : Nat) (tok : String)
    (h1 : st.hasLoadedInitial = true) (htok : env.token = some tok) :
    (∀ m r, fetchPages env.pages fuel 1 [] 0 = .netFailure m r →
      get_all_missions true st env fuel =
        some { missions := env.disk
               status := { success := false, source := .cache_fallback,
                           error := some ("Network error while fetching tasks: " ++ m) }
               state := st, disk := env.disk, requests := r }) ∧
    (∀ r, fetchPages env.pages fuel 1 [] 0 = .fetched [] r →
      get_all_missions true st env fuel =
        some { missions := env.disk
               status := { success := false, source := .cache_fallback,
                           error := some "No tasks fetched from API" }
               state := st, disk := env.disk, requests := r }) := by
  constructor
  · intro m r hloop
    unfold get_all_missions
    rw [if_neg (by simp [h1]), if_neg (by simp), htok, hloop]
  · intro r hloop
    unfold get_all_missions
    rw [if_neg (by simp [h1]), if_neg (by simp), htok, hloop]
    rfl

/-- C5 (witness): the two fallback paths at concrete environments — a
connection error on page 1, and an empty first page. -/
theorem c5_fetch_fallback_witness :
    get_all_missions (M := Nat) true
        { hasLoadedInitial := true, cachedMissions := some [5], lastFetchTime := 0 }
        { token := some "tok", disk := [9], diskMtime := 0, now := 0,
          pages := fun _ => .netError "connection refused" } 1 =
      some { missions := [9]
             status := { success := false, source := .cache_fallback,
                         error := some "Network error while fetching tasks: connection refused" }
             state := { hasLoadedInitial := true, cachedMissions := some [5],
                        lastFetchTime := 0 }
             disk := [9], requests := 1 } ∧
    get_all_missions (M := Nat) true
        { hasLoadedInitial := true, cachedMissions := some [5], lastFetchTime := 0 }
        { token := some "tok", disk := [9], diskMtime := 0, now := 0,
          pages := fun _ => .ok [] } 1 =
      some { missions := [9]
             status := { success := false, source := .cache_fallback,
                         error := some "No tasks fetched from API" }
             state := { hasLoadedInitial := true, cachedMissions := some [5],
                        lastFetchTime := 0 }
             disk := [9], requests := 1 } :=
  ⟨(c5_fetch_fallback _ _ 1 "tok" rfl rfl).1 "connection refused" 1 rfl,
   (c5_fetch_fallback _ _ 1 "tok" rfl rfl).2 1 rfl⟩

/-- C2 (code bug): after a failed combined remote multi-upload, the
`upload_attachments` endpoint removes every file and sidecar of the batch,
but the `upload_single_attachment` endpoint removes nothing: its
`uploaded_files` entries never stored the `file_path`/`metadata_path` keys,
so the rollback loop's key lookups raise `KeyError`, swallowed by its
`except Exception: pass`, and the whole batch stays on disk. -/
theorem c2_single_upload_no_rollback :
    upload_single_attachment_on_api_failure "data/codename/m1".data
        "data/codename/m1/metadata".data [("aaa".data, "shot.png".data)] [] =
      ["data/codename/m1/aaa_shot.png".data,
       "data/codename/m1/metadata/aaa_shot.png.json".data] ∧
    upload_attachments_on_api_failure "data/codename/m1".data
        "data/codename/m1/metadata".data [("aaa".data, "shot.png".data)] [] =
      [] := by decide

theorem startsW_append_self (p r : Text) : startsW p (p ++ r) = true := by
  unfold startsW
  rw [(dropPre_eq_some_iff p (p ++ r) r).mpr rfl]
  rfl

theorem afterFirstUnderscore_pre (p r : Text) (hp : '_' ∉ p) :
    afterFirstUnderscore (p ++ '_' :: r) = r := by
  unfold afterFirstUnderscore
  rw [if_pos (by simp)]
  have hdrop : (p ++ '_' :: r).dropWhile (fun c => c ≠ '_') = '_' :: r := by
    induction p with
    | nil => simp [List.dropWhile_cons]
    | cons c p ih =>
      have hc : c ≠ '_' := fun h => hp (h ▸ List.mem_cons_self c p)
      rw [List.cons_append, List.dropWhile_cons, if_pos (by simpa using hc)]
      exact ih (fun h => hp (List.mem_cons_of_mem c h))
  rw [hdrop]
  rfl

/-- The attachment store reached by uploading one file locally under local
id `abc` and then promoting it to remote id `xyz`: the file and sidecar are
renamed to the `xyz_` prefix, `uploaded_to_api` and `synack_id` are set, and
the sidecar's `id` field still holds `abc`. -/
theorem promoteOne_store (abc orig xyz : Text) (habc : '_' ∉ abc)
    (hx : startsW (xyz ++ ['_']) (abc ++ '_' :: orig) = false) :
    promoteOne (storeLocalOne abc orig) (abc ++ '_' :: orig) xyz =
      { files := [xyz ++ '_' :: orig]
        metadata := [(xyz ++ '_' :: orig,
          { id := abc, original_filename := orig, filename := xyz ++ '_' :: orig,
            uploaded_to_api := true, synack_id := some xyz })] } := by
  unfold promoteOne storeLocalOne metaFor
  simp [List.find?, hx, afterFirstUnderscore_pre abc orig habc]

/-- C6 (counterexample): promotion does not retire the local id.  With a
file stored under the local UUID `aaa`, promoted to remote id `zzz`, the
lookup used by `upload_to_api` still matches it by id `aaa`, through the
sidecar's `id` field, which promotion leaves unchanged. -/
theorem c6_promotion_cex :
    findByIdUploadToApi
      (promoteOne (storeLocalOne "aaa".data "shot.png".data)
        "aaa_shot.png".data "zzz".data) "aaa".data =
      some "zzz_shot.png".data := by decide

/-- C6 (amended): after promotion of a locally stored attachment from local
id `abc` to remote id `xyz`, lookup by `xyz` succeeds in both matchers via
the filename prefix; lookup by `abc` no longer matches by filename or by
`synack_id` (so `download_attachment`'s matcher returns nothing), but the
matcher of `upload_to_api` still finds the attachment by `abc` through the
sidecar's unchanged stored `id`; the sidecar records `uploaded_to_api` and
the remote id. -/
theorem c6_promotion_lookup (abc orig xyz : Text) (habc : '_' ∉ abc)
    (hx : startsW (xyz ++ ['_']) (abc ++ '_' :: orig) = false)
    (hnt : startsW "temp_".data (xyz ++ '_' :: orig) = false)
    (hsp : splitextBase (xyz ++ '_' :: orig) ≠ abc)
    (hpre : startsW (abc ++ ['_']) (xyz ++ '_' :: orig) = false)
    (hneq : xyz ≠ abc) :
    findByIdUploadToApi
        (promoteOne (storeLocalOne abc orig) (abc ++ '_' :: orig) xyz) xyz =
      some (xyz ++ '_' :: orig) ∧
    findByIdDownload
        (promoteOne (storeLocalOne abc orig) (abc ++ '_' :: orig) xyz) xyz =
      some (xyz ++ '_' :: orig) ∧
    findByIdDownload
        (promoteOne (storeLocalOne abc orig) (abc ++ '_' :: orig) xyz) abc =
      none ∧
    findByIdUploadToApi
        (promoteOne (storeLocalOne abc orig) (abc ++ '_' :: orig) xyz) abc =
      some (xyz ++ '_' :: orig) ∧
    metaFor (promoteOne (storeLocalOne abc orig) (abc ++ '_' :: orig) xyz)
        (xyz ++ '_' :: orig) =
      some { id := abc, original_filename := orig,
             filename := xyz ++ '_' :: orig,
             uploaded_to_api := true, synack_id := some xyz } := by
  rw [promoteOne_store abc orig xyz habc hx]
  have hsw : startsW (xyz ++ ['_']) (xyz ++ '_' :: orig) = true := by
    rw [show xyz ++ '_' :: orig = (xyz ++ ['_']) ++ orig by simp]
    exact startsW_append_self _ _
  refine ⟨?_, ?_, ?_, ?_, ?_⟩
  · simp [findByIdUploadToApi, List.find?, hnt, hsw]
  · simp [findByIdDownload, List.find?, hnt, hsw]
  · simp [findByIdDownload, metaFor, List.find?, hnt, hpre, hsp, hneq]
  · simp [findByIdUploadToApi, metaFor, List.find?, hnt, hpre, hsp]
  · simp [metaFor, List.find?]

/-- C6 (witness): the amended lookup behavior at concrete ids. -/
theorem c6_promotion_lookup_witness :
    findByIdUploadToApi
        (promoteOne (storeLocalOne "aaa".data "shot.png".data)
          ("aaa".data ++ '_' :: "shot.png".data) "zzz".data) "zzz".data =
      some ("zzz".data ++ '_' :: "shot.png".data) ∧
    findByIdDownload
        (promoteOne (storeLocalOne "aaa".data "shot.png".data)
          ("aaa".data ++ '_' :: "shot.png".data) "zzz".data) "aaa".data =
      none := by
  have h := c6_promotion_lookup "aaa".data "shot.png".data "zzz".data
    (by decide) (by decide) (by decide) (by decide) (by decide) (by decide)
  exact ⟨h.1, h.2.2.1⟩

/-- C10 (confirmed): saving a draft over an existing file replaces only the
conclusion section named by `conclusion_type`.  With `pass`, the
conclusion-fail value parsed from the previous file contents is kept
unchanged in the section map that is written back, and (when no section
value smuggles in a recognized tag line) re-parsing the rewritten file
recovers exactly that conclusion-fail content; symmetrically with `fail`
for conclusion-pass. -/
theorem c10_save_draft_frame (e : Text) (d : DraftData) :
    (d.conclusion_type = some "pass".data →
      (saveDraftSections (some e) d).conclusionFail =
        (parse_template e).conclusionFail ∧
      (saveDraftSections (some e) d).conclusionPass =
        some (d.conclusion.getD "No conclusion available.".data) ∧
      ((∀ l ∈ splitLines (d.introduction.getD "No introduction provided.".data),
          tagOf l = none) →
       (∀ l ∈ splitLines
          (d.testing_methodology.getD "No testing methodology provided.".data),
          tagOf l = none) →
       (∀ l ∈ splitLines (d.documentation.getD "No documentation provided.".data),
          tagOf l = none) →
       (∀ l ∈ splitLines (d.conclusion.getD "No conclusion available.".data),
          tagOf l = none) →
       (∀ l ∈ splitLines ((parse_template e).conclusionFail.getD []),
          tagOf l = none) →
       (∀ l ∈ splitLines (joinLines (normalizeScripts (d.scripts.getD (.list [])))),
          tagOf l = none) →
       (parse_template (save_draft_content (some e) d)).conclusionFail =
         some ((parse_template e).conclusionFail.getD []))) ∧
    (d.conclusion_type = some "fail".data →
      (saveDraftSections (some e) d).conclusionPass =
        (parse_template e).conclusionPass ∧
      (saveDraftSections (some e) d).conclusionFail =
        some (d.conclusion.getD "No conclusion available.".data) ∧
      ((∀ l ∈ splitLines (d.introduction.getD "No introduction provided.".data),
          tagOf l = none) →
       (∀ l ∈ splitLines
          (d.testing_methodology.getD "No testing methodology provided.".data),
          tagOf l = none) →
       (∀ l ∈ splitLines (d.documentation.getD "No documentation provided.".data),
          tagOf l = none) →
       (∀ l ∈ splitLines (d.conclusion.getD "No conclusion available.".data),
          tagOf l = none) →
       (∀ l ∈ splitLines ((parse_template e).conclusionPass.getD []),
          tagOf l = none) →
       (∀ l ∈ splitLines (joinLines (normalizeScripts (d.scripts.getD (.list [])))),
          tagOf l = none) →
       (parse_template (save_draft_content (some e) d)).conclusionPass =
         some ((parse_template e).conclusionPass.getD []))) := by
  constructor
  · intro hct
    have h1 : (saveDraftSections (some e) d).introduction =
        some (d.introduction.getD "No introduction provided.".data) := by
      simp [saveDraftSections, hct]
    have h2 : (saveDraftSections (some e) d).testing =
        some (d.testing_methodology.getD "No testing methodology provided.".data) := by
      simp [saveDraftSections, hct]
    have h3 : (saveDraftSections (some e) d).documentation =
        some (d.documentation.getD "No documentation provided.".data) := by
      simp [saveDraftSections, hct]
    have h4 : (saveDraftSections (some e) d).conclusionPass =
        some (d.conclusion.getD "No conclusion available.".data) := by
      simp [saveDraftSections, hct]
    have h5 : (saveDraftSections (some e) d).conclusionFail =
        (parse_template e).conclusionFail := by
      simp [saveDraftSections, hct]
    have h6 : (saveDraftSections (some e) d).scripts =
        some (normalizeScripts (d.scripts.getD (.list []))) := by
      simp [saveDraftSections, hct]
    refine ⟨h5, h4, ?_⟩
    intro hI hT hD hC hF hS
    unfold save_draft_content serializeSections
    rw [h1, h2, h3, h4, h5, h6]
    simp only [Option.getD_some]
    rw [parse_serialize_core _ _ _ _ _ _ hI hT hD hC hF hS]
    show some (strip ((parse_template e).conclusionFail.getD [])) = _
    rcases hcf : (parse_template e).conclusionFail with _ | v
    · rfl
    · rw [Option.getD_some, (parse_sections_invariant e).2.2.2.2.1 v hcf]
  · intro hct
    have h1 : (saveDraftSections (some e) d).introduction =
        some (d.introduction.getD "No introduction provided.".data) := by
      simp [saveDraftSections, hct]
    have h2 : (saveDraftSections (some e) d).testing =
        some (d.testing_methodology.getD "No testing methodology provided.".data) := by
      simp [saveDraftSections, hct]
    have h3 : (saveDraftSections (some e) d).documentation =
        some (d.documentation.getD "No documentation provided.".data) := by
      simp [saveDraftSections, hct]
    have h4 : (saveDraftSections (some e) d).conclusionFail =
        some (d.conclusion.getD "No conclusion available.".data) := by
      simp [saveDraftSections, hct]
    have h5 : (saveDraftSections (some e) d).conclusionPass =
        (parse_template e).conclusionPass := by
      simp [saveDraftSections, hct]
    have h6 : (saveDraftSections (some e) d).scripts =
        some (normalizeScripts (d.scripts.getD (.list []))) := by
      simp [saveDraftSections, hct]
    refine ⟨h5, h4, ?_⟩
    intro hI hT hD hC hF hS
    unfold save_draft_content serializeSections
    rw [h1, h2, h3, h4, h5, h6]
    simp only [Option.getD_some]
    rw [parse_serialize_core _ _ _ _ _ _ hI hT hD hF hC hS]
    show some (strip ((parse_template e).conclusionPass.getD [])) = _
    rcases hcp : (parse_template e).conclusionPass with _ | v
    · rfl
    · rw [Option.getD_some, (parse_sections_invariant e).2.2.2.1 v hcp]

/-- C10 (witness): saving with `conclusion_type = pass` over a draft whose
conclusion-fail section holds `kept`, with fresh introduction and
conclusion-pass content, leaves `kept` in the rewritten file. -/
theorem c10_save_draft_frame_witness :
    (parse_template (save_draft_content
        (some "[Introduction]\nold\n\n[conclusion-fail]\nkept".data)
        { introduction := some "new".data, conclusion_type := some "pass".data,
          conclusion := some "yes".data })).conclusionFail =
      some ((parse_template
        "[Introduction]\nold\n\n[conclusion-fail]\nkept".data).conclusionFail.getD []) ∧
    (saveDraftSections
        (some "[Introduction]\nold\n\n[conclusion-fail]\nkept".data)
        { introduction := some "new".data, conclusion_type := some "pass".data,
          conclusion := some "yes".data }).conclusionFail =
      (parse_template "[Introduction]\nold\n\n[conclusion-fail]\nkept".data).conclusionFail := by
  have h := (c10_save_draft_frame
    "[Introduction]\nold\n\n[conclusion-fail]\nkept".data
    { introduction := some "new".data, conclusion_type := some "pass".data,
      conclusion := some "yes".data }).1 rfl
  exact ⟨h.2.2 (by decide) (by decide) (by decide) (by decide) (by decide) (by decide),
    h.1⟩

end MissionHelper
